import Mathlib

/-!
Shallow embedding of `src/bot.py` (Telegram lecture reminder bot).

The bot keeps a JSON file mapping chats to lecture lists, and a job queue of
named weekly reminder jobs.  Command handlers (`/add`, `/remove`, `/schedule`)
load the file, mutate, save, and (re)register jobs; the job callback
`send_reminder` filters by ISO-week parity at fire time.

Modelling conventions:
* A `World` holds the persisted file content and the job queue
  (`app.job_queue` is a list of named jobs).
* Each command handler is a pure function `World → ... → World × Outcome`
  (plus a log of `schedule_lecture_job` invocations where a claim is about
  which invocations happen).  `Outcome.crashed` models an uncaught Python
  exception escaping the handler; state mutations performed before the raise
  are kept, mirroring the source's statement order.
* Python `datetime` arithmetic is modelled on a minute-resolution timeline:
  a `datetime` is `day * 1440 + minuteOfDay` minutes; `.hour` / `.minute`
  extraction is Euclidean `% 1440` then `/ 60`, `% 60`, which agrees with
  Python's calendar decomposition at minute resolution.  Python `%` and `//`
  agree with Lean's `Int.emod` / `Int.ediv` (both Euclidean for a positive
  modulus).
* Python `int(s)` is modelled by `String.toInt?` (decimal, optional minus
  sign).  Exotic forms Python also accepts (surrounding whitespace, `+`,
  `_` separators) are outside the model; no claim depends on them.
* Python `str.upper()` is modelled character-wise for ASCII and the Russian
  alphabet (the only letters the recognized tokens use); other characters
  are left unchanged.
-/

/-- One lecture dict: `{day, time, parity (optional), name}`. -/
structure Lecture where
  day : Nat
  time : String
  parity : Option String
  name : String
deriving DecidableEq

/-- One persisted record: `{chat_id, lectures}`. -/
structure ChatEntry where
  chat_id : Int
  lectures : List Lecture
deriving DecidableEq

abbrev Schedule := List ChatEntry

/-- Content of `schedule.json` as seen by `load_schedule`:
missing file, a file whose read/parse raises, or a parsed schedule. -/
inductive FileState where
  | missing : FileState
  | unreadable : FileState
  | content : Schedule → FileState
deriving DecidableEq

/-- One live job in `app.job_queue`, as created by `job_queue.run_daily`:
the job name, the weekday tuple entry, the fire time-of-day, and the
`data` payload snapshot. -/
structure Job where
  name : String
  day : Nat
  fireHour : Int
  fireMinute : Int
  dataChatId : Int
  dataName : String
  dataTime : String
  dataParity : String
deriving DecidableEq

/-- The bot process state a command handler touches: the schedule file and
the job queue. -/
structure World where
  file : FileState
  jobs : List Job
deriving DecidableEq

/-- Result of a handler towards the transport: a reply message, or an
uncaught exception. -/
inductive Outcome where
  | replied : String → Outcome
  | crashed : Outcome
deriving DecidableEq

/-- One invocation of `schedule_lecture_job`: the `lecture_id` and `lecture`
arguments it was called with. -/
abbrev Call := Nat × Lecture

/-- `REMINDER_MINUTES = 15`. -/
def REMINDER_MINUTES : Nat := 15

/-- `DAYS_RU`: RU day code to scheduler weekday number (week starts Sunday). -/
def DAYS_RU : List (String × Nat) :=
  [("ВС", 0), ("ПН", 1), ("ВТ", 2), ("СР", 3), ("ЧТ", 4), ("ПТ", 5), ("СБ", 6)]

/-- Dict lookup `DAYS_RU[d]` as used after the membership test in `cmd_add`. -/
def lookupDay (d : String) : Option Nat :=
  (DAYS_RU.find? (fun p => p.1 == d)).map Prod.snd

/-- `DAYS_RU_FULL`: weekday number to full Russian name.  `none` models a
`KeyError` on a number outside `0..6`. -/
def DAYS_RU_FULL : Nat → Option String
  | 0 => some "Воскресенье"
  | 1 => some "Понедельник"
  | 2 => some "Вторник"
  | 3 => some "Среда"
  | 4 => some "Четверг"
  | 5 => some "Пятница"
  | 6 => some "Суббота"
  | _ => none

/-- Python `str.upper()` on one character, for ASCII letters and the Russian
alphabet (enough for the day and parity tokens); identity elsewhere. -/
def pyUpperChar (c : Char) : Char :=
  if 'a' ≤ c ∧ c ≤ 'z' then Char.ofNat (c.toNat - 32)
  else if 'а' ≤ c ∧ c ≤ 'я' then Char.ofNat (c.toNat - 32)
  else if c = 'ё' then 'Ё'
  else c

/-- Python `str.upper()` (see `pyUpperChar`). -/
def pyUpper (s : String) : String := String.mk (s.data.map pyUpperChar)

/-- Split a character list at every occurrence of `sep` (`acc` is the
reversed current field). -/
def splitChAux (sep : Char) : List Char → List Char → List (List Char)
  | [], acc => [acc.reverse]
  | c :: cs, acc =>
    if c = sep then acc.reverse :: splitChAux sep cs []
    else splitChAux sep cs (c :: acc)

/-- Python `s.split(sep)` for a one-character separator (the only separator
the source uses). -/
def pySplit (s : String) (sep : Char) : List String :=
  (splitChAux sep s.data []).map String.mk

/-- Accumulator loop of `digitsToNat?`. -/
def digitsNatAux : List Char → Nat → Option Nat
  | [], acc => some acc
  | c :: cs, acc =>
    if c.isDigit then digitsNatAux cs (acc * 10 + (c.toNat - 48)) else none

/-- Read a nonempty all-digit character list as a number. -/
def digitsToNat? : List Char → Option Nat
  | [] => none
  | l => digitsNatAux l 0

/-- Python `int(s)` on a plain decimal token, optionally signed; `none`
models the raised `ValueError`.  (Python also tolerates surrounding
whitespace, a leading `+`, and `_` digit separators; no stored or
spec-relevant token uses those forms.) -/
def pyToInt? (s : String) : Option Int :=
  match s.data with
  | '-' :: rest => (digitsToNat? rest).map (fun n => -(n : Int))
  | l => (digitsToNat? l).map (fun n => (n : Int))

/-- `load_schedule`: return the parsed file content; a missing file or a
read/parse error degrades to the empty list (the `except` clause logs and
falls through to `return []`). -/
def load_schedule : FileState → Schedule
  | .missing => []
  | .unreadable => []
  | .content s => s

/-- `f"lecture_{chat_id}_{lecture_id}"`. -/
def jobName (chat_id : Int) (lecture_id : Nat) : String :=
  "lecture_" ++ toString chat_id ++ "_" ++ toString lecture_id

/-- `hour, minute = map(int, lecture["time"].split(":"))` — the unpacking
requires exactly two `:`-separated fields; `none` models the raised
`ValueError` otherwise. -/
def parseHM (t : String) : Option (Int × Int) :=
  match pySplit t ':' with
  | [hs, ms] =>
    match pyToInt? hs, pyToInt? ms with
    | some h, some m => some (h, m)
    | _, _ => none
  | _ => none

/-- The job `schedule_lecture_job` builds for one lecture:
`reminder_dt = now.replace(hour=hour, minute=minute) - timedelta(minutes=15)`
on the minute timeline (`nowDay` is the day index of `datetime.now(TZ)`),
then `run_daily(..., time=...(hour=reminder_dt.hour, minute=reminder_dt.minute)
.timetz(), days=(lecture["day"],), name=job_name, data={...})`.
`none` models the `ValueError` raised by `.replace` when the parsed hour or
minute is out of range (or by the parse itself). -/
def lectureJob (nowDay : Int) (chat_id : Int) (lecture : Lecture)
    (lecture_id : Nat) : Option Job :=
  match parseHM lecture.time with
  | none => none
  | some (h, m) =>
    if 0 ≤ h ∧ h ≤ 23 ∧ 0 ≤ m ∧ m ≤ 59 then
      some
        { name := jobName chat_id lecture_id
          day := lecture.day
          fireHour := (nowDay * 1440 + h * 60 + m - (REMINDER_MINUTES : Int)) % 1440 / 60
          fireMinute := (nowDay * 1440 + h * 60 + m - (REMINDER_MINUTES : Int)) % 1440 % 60
          dataChatId := chat_id
          dataName := lecture.name
          dataTime := lecture.time
          dataParity := lecture.parity.getD "all" }
    else none

/-- `schedule_lecture_job`: parse the time and build the reminder time (any
exception there happens before the queue is touched), then remove every
existing job with the same name and append the new one. -/
def schedule_lecture_job (nowDay : Int) (q : List Job) (chat_id : Int)
    (lecture : Lecture) (lecture_id : Nat) : Option (List Job) :=
  match lectureJob nowDay chat_id lecture lecture_id with
  | none => none
  | some j => some (q.filter (fun x => x.name ≠ j.name) ++ [j])

/-- The `for i, lecture in enumerate(...): schedule_lecture_job(...)` loop,
starting at index `i`.  Returns the job queue, the log of
`schedule_lecture_job` invocations (in order), and `false` if an invocation
raised (the queue then reflects the completed prefix, as in Python). -/
def registerAllFrom (nowDay : Int) (q : List Job) (chat_id : Int) (i : Nat) :
    List Lecture → List Job × List Call × Bool
  | [] => (q, [], true)
  | l :: ls =>
    match schedule_lecture_job nowDay q chat_id l i with
    | none => (q, [(i, l)], false)
    | some q' =>
      let r := registerAllFrom nowDay q' chat_id (i + 1) ls
      (r.1, (i, l) :: r.2.1, r.2.2)

/-- `⏰ Напоминание! ...` message built by `send_reminder`. -/
def reminderText (name time : String) : String :=
  "⏰ <b>Напоминание!</b>\n\nЧерез " ++ toString REMINDER_MINUTES ++
    " минут начнётся лекция:\n📚 <b>" ++ name ++ "</b>\n🕐 Начало в " ++ time

/-- `send_reminder`: the job callback.  `week` is
`datetime.now(TZ).isocalendar()[1]`; the result is the message sent
(`chat_id`, text), or `none` when the occurrence is suppressed by the
week-parity check. -/
def send_reminder (chat_id : Int) (name time parity : String) (week : Nat) :
    Option (Int × String) :=
  if parity ≠ "all" then
    if parity = "even" ∧ ¬ (week % 2 = 0) then none
    else if parity = "odd" ∧ week % 2 = 0 then none
    else some (chat_id, reminderText name time)
  else some (chat_id, reminderText name time)

/-- Parity matching as the spec words it (§4.2): `ALL` always true, `EVEN`
iff the ISO week number is even, `ODD` iff it is odd.  Used as the
comparison point for the dispatcher claim. -/
def parityMatchesSpec (parity : String) (week : Nat) : Bool :=
  if parity = "all" then true
  else if parity = "even" then week % 2 = 0
  else week % 2 = 1

/-- The linear search in `get_chat_entry`: first entry with this `chat_id`. -/
def findChatEntry : Schedule → Int → Option ChatEntry
  | [], _ => none
  | e :: es, chat_id => if e.chat_id = chat_id then some e else findChatEntry es chat_id

/-- `get_chat_entry`: return the (possibly extended) in-memory schedule and
the entry for the chat; when no entry exists, a fresh empty one is appended
to the list and returned. -/
def get_chat_entry (schedule : Schedule) (chat_id : Int) : Schedule × ChatEntry :=
  match findChatEntry schedule chat_id with
  | some e => (schedule, e)
  | none => (schedule ++ [⟨chat_id, []⟩], ⟨chat_id, []⟩)

/-- Mutating the entry returned by `get_chat_entry` in place: replace the
lecture list of the first entry with this `chat_id`. -/
def updateFirstChat : Schedule → Int → List Lecture → Schedule
  | [], _, _ => []
  | e :: es, chat_id, lecs =>
    if e.chat_id = chat_id then { e with lectures := lecs } :: es
    else e :: updateFirstChat es chat_id lecs

/-- `f"{n:02d}"` for the nonnegative values it is applied to. -/
def pad2 (n : Int) : String :=
  if n < 10 then "0" ++ toString n else toString n

/-- `pad2` restricted to `Nat`, used to state the normalized-time shape. -/
def pad2Nat (n : Nat) : String :=
  if n < 10 then "0" ++ toString n else toString n

/-- `f"{hour:02d}:{minute:02d}"` — the stored `time` field. -/
def fmtTime (h m : Int) : String := pad2 h ++ ":" ++ pad2 m

/-- `(datetime(2000, 1, 1, h, m) - timedelta(minutes=15)).strftime("%H:%M")`
(minute-timeline model; `%H`/`%M` zero-pad to two digits). -/
def reminderTimeText (h m : Int) : String :=
  fmtTime ((h * 60 + m - (REMINDER_MINUTES : Int)) % 1440 / 60)
    ((h * 60 + m - (REMINDER_MINUTES : Int)) % 1440 % 60)

/-- Time validation in `cmd_add`: `parts = time_str.split(":")`,
`hour, minute = int(parts[0]), int(parts[1])` (extra fields are ignored;
a missing `parts[1]`, an unparsable field, or an out-of-range value all
raise into the same `except` and yield the bad-time reply). -/
def parseAddTime (t : String) : Option (Int × Int) :=
  match pySplit t ':' with
  | hs :: ms :: _ =>
    match pyToInt? hs, pyToInt? ms with
    | some h, some m =>
      if 0 ≤ h ∧ h ≤ 23 ∧ 0 ≤ m ∧ m ≤ 59 then some (h, m) else none
    | _, _ => none
  | _ => none

/-- Usage reply of `/add`. -/
def addUsageText : String :=
  "❌ Формат: <code>/add ДЕНЬ ЧЧ:ММ [ЧЕТ/НЕЧЕТ] Название</code>\n" ++
    "Примеры:\n<code>/add ПН 09:00 Математика</code>\n<code>/add ВТ 10:30 ЧЕТ Физика</code>"

/-- Unknown-day reply of `/add`. -/
def badDayText (d : String) : String :=
  "❌ Неизвестный день: <b>" ++ d ++ "</b>\nДопустимые: " ++
    String.intercalate ", " (DAYS_RU.map Prod.fst)

/-- Bad-time reply of `/add`. -/
def badTimeText : String :=
  "❌ Неверный формат времени. Используйте <code>ЧЧ:ММ</code>, например <code>09:00</code>"

/-- Missing-name reply of `/add`. -/
def noNameText : String := "❌ Укажите название лекции."

/-- Parity suffix in the `/add` confirmation. -/
def parityConfirmText (parity : String) : String :=
  if parity = "even" then " (Чётная неделя)"
  else if parity = "odd" then " (Нечётная неделя)"
  else ""

/-- Confirmation reply of `/add`. -/
def addOkText (name parity dayFull : String) (h m : Int) : String :=
  "✅ Лекция добавлена!\n\n📚 <b>" ++ name ++ "</b>" ++ parityConfirmText parity ++
    "\n📅 " ++ dayFull ++ "\n🕐 " ++ fmtTime h m ++ "\n🔔 Напоминание в " ++
    reminderTimeText h m

/-- Argument parsing of `cmd_add` (source lines 204-252): the outcome before
any state is touched. -/
inductive AddParse where
  | usage : AddParse
  | badDay : String → AddParse
  | badTime : AddParse
  | noName : AddParse
  | parsed : Nat → Int → Int → String → String → AddParse
deriving DecidableEq

/-- Parse `/add` arguments: day token (uppercased) against `DAYS_RU`, the
time, the optional parity token (uppercased; consumed only when it is one of
`ЧЕТ`, `НЕЧЕТ`, `ВСЕ`), and the name joined from the remaining tokens.
`parsed day hour minute parity name` carries the validated pieces. -/
def addParse : List String → AddParse
  | a0 :: a1 :: a2 :: rest =>
    match lookupDay (pyUpper a0) with
    | none => .badDay (pyUpper a0)
    | some day =>
      match parseAddTime a1 with
      | none => .badTime
      | some (h, m) =>
        let pot := pyUpper a2
        let pn : String × List String :=
          if pot = "ЧЕТ" then ("even", rest)
          else if pot = "НЕЧЕТ" then ("odd", rest)
          else if pot = "ВСЕ" then ("all", rest)
          else ("all", a2 :: rest)
        let name := String.intercalate " " pn.2
        if name = "" then .noName else .parsed day h m pn.1 name
  | _ => .usage

/-- `cmd_add`: validate the arguments; on success append the lecture to the
chat's list, save, register a job for the appended lecture only, and reply
with the confirmation.  The `Call` list logs the `schedule_lecture_job`
invocations made. -/
def cmd_add (nowDay : Int) (w : World) (chat_id : Int) (args : List String) :
    World × Outcome × List Call :=
  match addParse args with
  | .usage => (w, .replied addUsageText, [])
  | .badDay d => (w, .replied (badDayText d), [])
  | .badTime => (w, .replied badTimeText, [])
  | .noName => (w, .replied noNameText, [])
  | .parsed day h m parity name =>
    let lecture : Lecture := { day := day, time := fmtTime h m, parity := some parity, name := name }
    let p := get_chat_entry (load_schedule w.file) chat_id
    let lecs' := p.2.lectures ++ [lecture]
    let w1 : World := { file := .content (updateFirstChat p.1 chat_id lecs'), jobs := w.jobs }
    let lecture_idx := lecs'.length - 1
    match schedule_lecture_job nowDay w1.jobs chat_id lecture lecture_idx with
    | none => (w1, .crashed, [(lecture_idx, lecture)])
    | some q' =>
      match DAYS_RU_FULL day with
      | none => ({ file := w1.file, jobs := q' }, .crashed, [(lecture_idx, lecture)])
      | some dayFull =>
        ({ file := w1.file, jobs := q' },
          .replied (addOkText name parity dayFull h m), [(lecture_idx, lecture)])

/-- Usage reply of `/remove`. -/
def removeUsageText : String :=
  "❌ Формат: <code>/remove НОМЕР</code>\nПосмотри номера через /schedule"

/-- Non-numeric reply of `/remove`. -/
def notANumberText : String := "❌ Номер должен быть числом."

/-- Out-of-range reply of `/remove` (`n` is `idx + 1`). -/
def removeNotFoundText (n : Int) : String :=
  "❌ Лекции с номером <b>" ++ toString n ++ "</b> нет.\nПроверь /schedule"

/-- Parity suffix in the `/remove` confirmation. -/
def parityRemovedText (parity : Option String) : String :=
  if parity = some "even" then " [чётная]"
  else if parity = some "odd" then " [нечётная]"
  else ""

/-- Confirmation reply of `/remove`; `none` models the `KeyError` when the
removed entry's day number has no full name. -/
def removeOkText (removed : Lecture) : Option String :=
  match DAYS_RU_FULL removed.day with
  | none => none
  | some dayFull =>
    some ("🗑️ Лекция удалена: <b>" ++ removed.name ++ "</b>" ++
      parityRemovedText removed.parity ++ " (" ++ dayFull ++ " " ++ removed.time ++ ")")

/-- `cmd_remove`: validate the 1-based index against the chat's current list;
on success pop the lecture, save, cancel the job named for the removed index,
then re-run `schedule_lecture_job` for every remaining lecture.  The `Call`
list logs the `schedule_lecture_job` invocations made. -/
def cmd_remove (nowDay : Int) (w : World) (chat_id : Int) (args : List String) :
    World × Outcome × List Call :=
  match args with
  | [a] =>
    match pyToInt? a with
    | none => (w, .replied notANumberText, [])
    | some n =>
      let idx : Int := n - 1
      let p := get_chat_entry (load_schedule w.file) chat_id
      if idx < 0 ∨ (p.2.lectures.length : Int) ≤ idx then
        (w, .replied (removeNotFoundText (idx + 1)), [])
      else
        match p.2.lectures[idx.toNat]? with
        | none => (w, .crashed, [])
        | some removed =>
          let lecs' := p.2.lectures.eraseIdx idx.toNat
          let w1 : World := { file := .content (updateFirstChat p.1 chat_id lecs'), jobs := w.jobs }
          let afterCancel := w1.jobs.filter (fun j => j.name ≠ jobName chat_id idx.toNat)
          let r := registerAllFrom nowDay afterCancel chat_id 0 lecs'
          if r.2.2 then
            match removeOkText removed with
            | none => ({ file := w1.file, jobs := r.1 }, .crashed, r.2.1)
            | some txt => ({ file := w1.file, jobs := r.1 }, .replied txt, r.2.1)
          else ({ file := w1.file, jobs := r.1 }, .crashed, r.2.1)
  | _ => (w, .replied removeUsageText, [])

/-- Empty-schedule reply of `/schedule`. -/
def emptyScheduleText : String :=
  "📭 Расписание пусто.\nДобавь лекцию: <code>/add ПН 09:00 Математика</code>"

/-- `list(enumerate(...))` starting at `i`. -/
def enumFrom {α : Type} (i : Nat) : List α → List (Nat × α)
  | [] => []
  | x :: xs => (i, x) :: enumFrom (i + 1) xs

/-- Sort key comparison of `cmd_schedule`: Python tuple order on
`(lecture["day"], lecture["time"])` (string time compared lexicographically). -/
def scheduleLe (a b : Nat × Lecture) : Bool :=
  a.2.day < b.2.day ∨ (a.2.day = b.2.day ∧ a.2.time ≤ b.2.time)

/-- Parity suffix in a `/schedule` line. -/
def parityLineText (parity : Option String) : String :=
  if parity = some "even" then " <i>[чётная]</i>"
  else if parity = some "odd" then " <i>[нечётная]</i>"
  else ""

/-- The line-building loop of `cmd_schedule`: day headers are emitted when
the day changes, each line shows the 1-based original index, time, parity
suffix, name, and computed reminder time.  `none` models the exception
raised for a day number without a full name or an unparsable stored time. -/
def scheduleLines : Int → List (Nat × Lecture) → Option (List String)
  | _, [] => some []
  | currentDay, (origIdx, lecture) :: restL =>
    let headers : Option (List String) :=
      if (lecture.day : Int) ≠ currentDay then
        match DAYS_RU_FULL lecture.day with
        | none => none
        | some dayFull => some ["\n<b>" ++ dayFull ++ ":</b>"]
      else some []
    match headers with
    | none => none
    | some hs =>
      match parseHM lecture.time with
      | none => none
      | some (h, m) =>
        if 0 ≤ h ∧ h ≤ 23 ∧ 0 ≤ m ∧ m ≤ 59 then
          match scheduleLines (lecture.day : Int) restL with
          | none => none
          | some tail =>
            some (hs ++
              ["  " ++ toString (origIdx + 1) ++ ". 🕐 " ++ lecture.time ++
                parityLineText lecture.parity ++ " — " ++ lecture.name ++ "  " ++
                "<i>(🔔 " ++ reminderTimeText h m ++ ")</i>"] ++ tail)
        else none

/-- Reply building of `cmd_schedule` for a non-empty list: enumerate,
stable-sort by `(day, time)`, build the lines, append the timezone footer. -/
def scheduleReplyOutcome (lectures : List Lecture) : Outcome :=
  let indexed := (enumFrom 0 lectures).mergeSort scheduleLe
  match scheduleLines (-1) indexed with
  | none => .crashed
  | some ls =>
    .replied (String.intercalate "\n"
      (["📅 <b>Расписание лекций:</b>\n"] ++ ls ++ ["\n🌍 Часовой пояс: Asia/Irkutsk"]))

/-- `cmd_schedule`: load the schedule, look up (or create, in memory only)
the chat's entry, and reply with the listing or the empty-schedule message.
It never saves and never touches the job queue, so the `World` component is
returned unchanged. -/
def cmd_schedule (w : World) (chat_id : Int) : World × Outcome :=
  (w,
    let p := get_chat_entry (load_schedule w.file) chat_id
    if p.2.lectures = [] then .replied emptyScheduleText
    else scheduleReplyOutcome p.2.lectures)

/-! ## Supporting lemmas -/

lemma lectureJob_eq (nowDay chat_id : Int) (lecture : Lecture) (lecture_id : Nat)
    (h m : Int) (hp : parseHM lecture.time = some (h, m))
    (hval : 0 ≤ h ∧ h ≤ 23 ∧ 0 ≤ m ∧ m ≤ 59) :
    lectureJob nowDay chat_id lecture lecture_id = some
      { name := jobName chat_id lecture_id
        day := lecture.day
        fireHour := (nowDay * 1440 + h * 60 + m - (REMINDER_MINUTES : Int)) % 1440 / 60
        fireMinute := (nowDay * 1440 + h * 60 + m - (REMINDER_MINUTES : Int)) % 1440 % 60
        dataChatId := chat_id
        dataName := lecture.name
        dataTime := lecture.time
        dataParity := lecture.parity.getD "all" } := by
  unfold lectureJob
  rw [hp]
  exact if_pos hval

/-! ## Claim theorems -/

/-- C7: `load_schedule` returns the empty schedule whenever the schedule
file does not exist or reading/parsing it raises; being a total function of
the file state, it propagates no exception to the caller. -/
theorem c7_load_degrades_to_empty (f : FileState)
    (h : f = FileState.missing ∨ f = FileState.unreadable) :
    load_schedule f = [] := by
  rcases h with h | h <;> subst h <;> rfl

/-- Witness for C7 at both failure states. -/
theorem c7_witness :
    load_schedule FileState.missing = [] ∧ load_schedule FileState.unreadable = [] :=
  ⟨c7_load_degrades_to_empty _ (Or.inl rfl), c7_load_degrades_to_empty _ (Or.inr rfl)⟩

/-- C4: when a timer fires, `send_reminder` sends iff the payload's parity
matches the fire date per the spec's parity evaluator (`all` always; `even`
iff the ISO week number is even; `odd` iff odd); a non-matching occurrence
yields no message and no error (the callback returns `none` normally). -/
theorem c4_parity_dispatch (chat_id : Int) (name time parity : String) (week : Nat)
    (h : parity = "all" ∨ parity = "even" ∨ parity = "odd") :
    ((send_reminder chat_id name time parity week).isSome ↔
        parityMatchesSpec parity week = true) ∧
      (parityMatchesSpec parity week = false →
        send_reminder chat_id name time parity week = none) := by
  have hw : week % 2 = 0 ∨ week % 2 = 1 := Nat.mod_two_eq_zero_or_one week
  rcases h with h | h | h <;> subst h <;> rcases hw with hw | hw <;>
    simp [send_reminder, parityMatchesSpec, hw]

/-- Witness for C4: parity `even` in ISO week 2. -/
theorem c4_witness :
    ((send_reminder 1 "Физика" "10:30" "even" 2).isSome ↔
        parityMatchesSpec "even" 2 = true) ∧
      (parityMatchesSpec "even" 2 = false →
        send_reminder 1 "Физика" "10:30" "even" 2 = none) :=
  c4_parity_dispatch 1 "Физика" "10:30" "even" 2 (Or.inr (Or.inl rfl))

/-- C3: for every valid lecture time, the registered job fires on the
lecture's own weekday at `time - 15min` taken modulo the day (a time-of-day
in `00:00..23:59`, never a negative-of-day value); at the boundary times
`00:05..00:14` it wraps to `23:50..23:59` of the same weekday. -/
theorem c3_fire_time (nowDay chat_id : Int) (lecture : Lecture) (lecture_id : Nat)
    (h m : Int) (hp : parseHM lecture.time = some (h, m))
    (h0 : 0 ≤ h) (h23 : h ≤ 23) (m0 : 0 ≤ m) (m59 : m ≤ 59) :
    ∃ j, lectureJob nowDay chat_id lecture lecture_id = some j ∧
      j.day = lecture.day ∧
      0 ≤ j.fireHour ∧ j.fireHour ≤ 23 ∧ 0 ≤ j.fireMinute ∧ j.fireMinute ≤ 59 ∧
      j.fireHour * 60 + j.fireMinute = (h * 60 + m - 15) % 1440 ∧
      (h = 0 → 5 ≤ m → m ≤ 14 → j.fireHour = 23 ∧ j.fireMinute = m + 45) := by
  refine ⟨_, lectureJob_eq nowDay chat_id lecture lecture_id h m hp ⟨h0, h23, m0, m59⟩,
    rfl, ?_, ?_, ?_, ?_, ?_, ?_⟩ <;>
    simp only [REMINDER_MINUTES, Nat.cast_ofNat] <;> omega

/-- Witness for C3 at the boundary time `00:05`. -/
theorem c3_witness :
    ∃ j, lectureJob 0 7 ⟨1, "00:05", some "all", "Лекция"⟩ 0 = some j ∧
      j.day = 1 ∧
      0 ≤ j.fireHour ∧ j.fireHour ≤ 23 ∧ 0 ≤ j.fireMinute ∧ j.fireMinute ≤ 59 ∧
      j.fireHour * 60 + j.fireMinute = ((0 : Int) * 60 + 5 - 15) % 1440 ∧
      ((0 : Int) = 0 → 5 ≤ (5 : Int) → (5 : Int) ≤ 14 → j.fireHour = 23 ∧ j.fireMinute = 5 + 45) :=
  c3_fire_time 0 7 ⟨1, "00:05", some "all", "Лекция"⟩ 0 0 5 (by decide)
    (by decide) (by decide) (by decide) (by decide)

/-- C6: a `/remove` whose 1-based index is out of range for the invoking
chat's current list replies with a message naming that index, leaves the
world (stored schedule and job queue) untouched, and makes no
`schedule_lecture_job` invocation. -/
theorem c6_remove_out_of_range (nowDay : Int) (w : World) (chat_id : Int)
    (a : String) (n : Int) (hn : pyToInt? a = some n)
    (hrange : n - 1 < 0 ∨
      ((get_chat_entry (load_schedule w.file) chat_id).2.lectures.length : Int) ≤ n - 1) :
    cmd_remove nowDay w chat_id [a] = (w, .replied (removeNotFoundText n), []) ∧
      ∃ pre post, removeNotFoundText n = pre ++ toString n ++ post := by
  constructor
  · have h1 : n - 1 + 1 = n := by omega
    simp only [cmd_remove, hn]
    rw [if_pos hrange]
    rw [h1]
  · exact ⟨"❌ Лекции с номером <b>", "</b> нет.\nПроверь /schedule", rfl⟩

/-- Witness for C6: `remove 5` on a chat with 2 lectures. -/
theorem c6_witness :
    cmd_remove 0
        ⟨FileState.content [⟨1, [⟨1, "09:00", some "all", "А"⟩, ⟨2, "10:00", some "all", "Б"⟩]⟩], []⟩
        1 ["5"] =
      (⟨FileState.content [⟨1, [⟨1, "09:00", some "all", "А"⟩, ⟨2, "10:00", some "all", "Б"⟩]⟩], []⟩,
        .replied (removeNotFoundText 5), []) ∧
      ∃ pre post, removeNotFoundText 5 = pre ++ toString (5 : Int) ++ post :=
  c6_remove_out_of_range 0
    ⟨FileState.content [⟨1, [⟨1, "09:00", some "all", "А"⟩, ⟨2, "10:00", some "all", "Б"⟩]⟩], []⟩
    1 "5" 5 (by decide) (by decide)

/-- C10: `cmd_schedule` performs no persistence and no job mutation — the
world comes back unchanged — and for a chat with no entry the fresh empty
entry `get_chat_entry` appends exists only in the discarded in-memory list. -/
theorem c10_schedule_reads_only (w : World) (chat_id : Int) :
    (cmd_schedule w chat_id).1 = w ∧
      (findChatEntry (load_schedule w.file) chat_id = none →
        (get_chat_entry (load_schedule w.file) chat_id).1 =
          load_schedule w.file ++ [⟨chat_id, []⟩]) := by
  refine ⟨rfl, fun h => ?_⟩
  unfold get_chat_entry
  rw [h]

/-- Witness for C10: a chat with no entry in a one-entry store. -/
theorem c10_witness :
    (cmd_schedule ⟨FileState.content [⟨1, []⟩], []⟩ 2).1 = ⟨FileState.content [⟨1, []⟩], []⟩ ∧
      (get_chat_entry (load_schedule (FileState.content [⟨1, []⟩])) 2).1 =
        load_schedule (FileState.content [⟨1, []⟩]) ++ [⟨2, []⟩] :=
  ⟨(c10_schedule_reads_only ⟨FileState.content [⟨1, []⟩], []⟩ 2).1,
    (c10_schedule_reads_only ⟨FileState.content [⟨1, []⟩], []⟩ 2).2 (by decide)⟩

/-- Store content for the stale-timer scenario: one chat (id 1) with
lectures at positions 0, 1, 2. -/
def c1Lectures : List Lecture :=
  [⟨1, "09:00", some "all", "А"⟩, ⟨1, "10:00", some "all", "Б"⟩, ⟨1, "11:00", some "all", "В"⟩]

/-- World for the stale-timer scenario: the store holds `c1Lectures` and the
job queue holds the live timer registered for each of the three positions. -/
def c1World : World :=
  ⟨FileState.content [⟨1, c1Lectures⟩], (registerAllFrom 0 [] 1 0 c1Lectures).1⟩

/-- C1 (code bug): with lectures at positions 0, 1, 2 and a live timer for
each, `remove 1` (position 0) pops the lecture from the store but leaves
THREE live timers, not two: the re-registered `lecture_1_0`, `lecture_1_1`
and a stale `lecture_1_2` — the handler cancels only the job named for the
removed index and re-registers positions `0..len-2`, never cancelling the
old last job.  The spec's required outcome (exactly 2 timers, none for
stale position 2) fails. -/
theorem c1_remove_leaves_stale_timer :
    c1World.jobs.map Job.name = [jobName 1 0, jobName 1 1, jobName 1 2] ∧
    (cmd_remove 0 c1World 1 ["1"]).1.jobs.map Job.name =
      [jobName 1 2, jobName 1 0, jobName 1 1] ∧
    (cmd_remove 0 c1World 1 ["1"]).1.jobs.length = 3 ∧
    ¬ (cmd_remove 0 c1World 1 ["1"]).1.jobs.length = 2 ∧
    jobName 1 2 ∈ (cmd_remove 0 c1World 1 ["1"]).1.jobs.map Job.name ∧
    load_schedule (cmd_remove 0 c1World 1 ["1"]).1.file =
      [⟨1, [⟨1, "10:00", some "all", "Б"⟩, ⟨1, "11:00", some "all", "В"⟩]⟩] := by
  decide

/-- Store for the add-reconciliation counterexample: chat 1 already has one
lecture (whose timer may have been lost, e.g. after a restart race); the
job queue is empty so an invocation of `schedule_lecture_job` for position 0
would be observable. -/
def c2World : World := ⟨FileState.content [⟨1, [⟨1, "09:00", some "all", "Матан"⟩]⟩], []⟩

/-- C2 (counterexample): after `add ПН 10:00 Физика` the chat's list has two
lectures, but `schedule_lecture_job` was invoked only for position 1 (the
appended lecture) — not for every lecture in the list as the claim states:
position 0 received no invocation. -/
theorem c2_counterexample_add_only_new :
    (get_chat_entry
        (load_schedule (cmd_add 0 c2World 1 ["ПН", "10:00", "Физика"]).1.file) 1).2.lectures.length = 2 ∧
    (cmd_add 0 c2World 1 ["ПН", "10:00", "Физика"]).2.2.map Prod.fst = [1] ∧
    ¬ (0 ∈ (cmd_add 0 c2World 1 ["ПН", "10:00", "Физика"]).2.2.map Prod.fst) := by
  decide

lemma registerAllFrom_calls (lecs : List Lecture) :
    ∀ (nowDay : Int) (q : List Job) (chat_id : Int) (i : Nat),
    (registerAllFrom nowDay q chat_id i lecs).2.2 = true →
    (registerAllFrom nowDay q chat_id i lecs).2.1 = enumFrom i lecs := by
  induction lecs with
  | nil => intro _ _ _ _ _; rfl
  | cons l ls ih =>
    intro nowDay q chat_id i hflag
    simp only [registerAllFrom] at hflag ⊢
    cases hsj : schedule_lecture_job nowDay q chat_id l i with
    | none => rw [hsj] at hflag; simp at hflag
    | some q' =>
      rw [hsj] at hflag
      dsimp only at hflag ⊢
      simp only [enumFrom, List.cons.injEq, true_and]
      exact ih nowDay q' chat_id (i + 1) hflag

lemma cmd_add_appended (nowDay : Int) (w : World) (chat_id : Int) (args : List String)
    (w' : World) (out : Outcome) (i : Nat) (lec : Lecture) (more : List Call)
    (heq : cmd_add nowDay w chat_id args = (w', out, (i, lec) :: more)) :
    ∃ day h m parity name, addParse args = .parsed day h m parity name ∧
      lec = ⟨day, fmtTime h m, some parity, name⟩ ∧ more = [] ∧
      i = (get_chat_entry (load_schedule w.file) chat_id).2.lectures.length ∧
      w'.file = FileState.content
        (updateFirstChat (get_chat_entry (load_schedule w.file) chat_id).1 chat_id
          ((get_chat_entry (load_schedule w.file) chat_id).2.lectures ++ [lec])) := by
  cases haddp : addParse args with
  | usage => simp only [cmd_add, haddp] at heq; simp at heq
  | badDay d => simp only [cmd_add, haddp] at heq; simp at heq
  | badTime => simp only [cmd_add, haddp] at heq; simp at heq
  | noName => simp only [cmd_add, haddp] at heq; simp at heq
  | parsed day h m parity name =>
    refine ⟨day, h, m, parity, name, rfl, ?_⟩
    simp only [cmd_add, haddp] at heq
    split at heq
    · simp only [Prod.mk.injEq, List.cons.injEq] at heq
      obtain ⟨hW, hout, ⟨hi, hlec⟩, hmore⟩ := heq
      refine ⟨hlec.symm, hmore.symm, ?_, ?_⟩
      · rw [← hi]; simp [List.length_append]
      · rw [← hlec, ← hW]
    · split at heq
      · simp only [Prod.mk.injEq, List.cons.injEq] at heq
        obtain ⟨hW, hout, ⟨hi, hlec⟩, hmore⟩ := heq
        refine ⟨hlec.symm, hmore.symm, ?_, ?_⟩
        · rw [← hi]; simp [List.length_append]
        · rw [← hlec, ← hW]
      · simp only [Prod.mk.injEq, List.cons.injEq] at heq
        obtain ⟨hW, hout, ⟨hi, hlec⟩, hmore⟩ := heq
        refine ⟨hlec.symm, hmore.symm, ?_, ?_⟩
        · rw [← hi]; simp [List.length_append]
        · rw [← hlec, ← hW]

/-- C2 (amended): on removal with a valid index and a successfully completed
handler, `schedule_lecture_job` is invoked for every lecture of the updated
list, in order; on an add, it is invoked only for the appended lecture
(whose position is the previous length of the chat's list), never for the
existing ones. -/
theorem c2_amended_registration_scope (nowDay : Int) (w : World) (chat_id : Int) :
    (∀ a n w' t calls, pyToInt? a = some n →
      cmd_remove nowDay w chat_id [a] = (w', Outcome.replied t, calls) →
      1 ≤ n →
      n - 1 < ((get_chat_entry (load_schedule w.file) chat_id).2.lectures.length : Int) →
      calls = enumFrom 0
        ((get_chat_entry (load_schedule w.file) chat_id).2.lectures.eraseIdx (n - 1).toNat)) ∧
    (∀ args w' out calls, cmd_add nowDay w chat_id args = (w', out, calls) →
      calls = [] ∨ ∃ lec, calls =
        [((get_chat_entry (load_schedule w.file) chat_id).2.lectures.length, lec)]) := by
  constructor
  · intro a n w' t calls hn heq hlo hhi
    have hcond : ¬ (n - 1 < 0 ∨
        ((get_chat_entry (load_schedule w.file) chat_id).2.lectures.length : Int) ≤ n - 1) := by
      omega
    have hlt : (n - 1).toNat <
        (get_chat_entry (load_schedule w.file) chat_id).2.lectures.length := by
      omega
    simp only [cmd_remove, hn] at heq
    rw [if_neg hcond] at heq
    simp only [List.getElem?_eq_getElem hlt] at heq
    split at heq
    · rename_i hflag
      split at heq
      · simp only [Prod.mk.injEq] at heq
        exact absurd heq.2.1 (by simp)
      · simp only [Prod.mk.injEq, Outcome.replied.injEq] at heq
        obtain ⟨hW, ht, hcalls⟩ := heq
        rw [← hcalls]
        exact registerAllFrom_calls _ _ _ _ _ hflag
    · simp only [Prod.mk.injEq] at heq
      exact absurd heq.2.1 (by simp)
  · intro args w' out calls heq
    cases calls with
    | nil => exact Or.inl rfl
    | cons c more =>
      right
      cases c with
      | mk ci clec =>
        obtain ⟨day, h, m, parity, name, haddp, hlec, hmore, hi, hfile⟩ :=
          cmd_add_appended nowDay w chat_id args w' out ci clec more heq
        subst hmore
        subst hi
        exact ⟨clec, rfl⟩

/-- Witness for C2's amended theorem: both parts at a concrete one-lecture
store (the remove deletes the only lecture; the add appends at position 1). -/
theorem c2_witness :
    (([] : List Call) = enumFrom 0
        ((get_chat_entry (load_schedule c2World.file) 1).2.lectures.eraseIdx
          ((1 : Int) - 1).toNat)) ∧
    ([((get_chat_entry (load_schedule c2World.file) 1).2.lectures.length,
        (⟨1, "10:00", some "all", "Физика"⟩ : Lecture))] = [] ∨
      ∃ lec, [((get_chat_entry (load_schedule c2World.file) 1).2.lectures.length,
          (⟨1, "10:00", some "all", "Физика"⟩ : Lecture))] =
        [((get_chat_entry (load_schedule c2World.file) 1).2.lectures.length, lec)]) :=
  ⟨(c2_amended_registration_scope 0 c2World 1).1 "1" 1 (cmd_remove 0 c2World 1 ["1"]).1
      "🗑️ Лекция удалена: <b>Матан</b> (Понедельник 09:00)" [] (by decide) (by decide)
      (by decide) (by decide),
    (c2_amended_registration_scope 0 c2World 1).2 ["ПН", "10:00", "Физика"]
      (cmd_add 0 c2World 1 ["ПН", "10:00", "Физика"]).1
      (cmd_add 0 c2World 1 ["ПН", "10:00", "Физика"]).2.1
      [((get_chat_entry (load_schedule c2World.file) 1).2.lectures.length,
        ⟨1, "10:00", some "all", "Физика"⟩)] (by decide)⟩

lemma addParse_parsed_fields (a0 a1 a2 : String) (rest : List String)
    (day : Nat) (h m : Int) (parity name : String)
    (hp : addParse (a0 :: a1 :: a2 :: rest) = .parsed day h m parity name) :
    parseAddTime a1 = some (h, m) ∧
    ((pyUpper a2 = "ЧЕТ" ∧ parity = "even" ∧ name = String.intercalate " " rest) ∨
     (pyUpper a2 = "НЕЧЕТ" ∧ parity = "odd" ∧ name = String.intercalate " " rest) ∨
     (pyUpper a2 = "ВСЕ" ∧ parity = "all" ∧ name = String.intercalate " " rest) ∨
     (pyUpper a2 ≠ "ЧЕТ" ∧ pyUpper a2 ≠ "НЕЧЕТ" ∧ pyUpper a2 ≠ "ВСЕ" ∧
       parity = "all" ∧ name = String.intercalate " " (a2 :: rest))) := by
  simp only [addParse] at hp
  cases hld : lookupDay (pyUpper a0) with
  | none => simp only [hld] at hp; exact absurd hp (by simp)
  | some d =>
    simp only [hld] at hp
    cases hpt : parseAddTime a1 with
    | none => simp only [hpt] at hp; exact absurd hp (by simp)
    | some hm2 =>
      obtain ⟨h2, m2⟩ := hm2
      simp only [hpt] at hp
      by_cases hc1 : pyUpper a2 = "ЧЕТ"
      · rw [if_pos hc1] at hp
        split at hp
        · simp at hp
        · simp only [AddParse.parsed.injEq] at hp
          obtain ⟨hd, hh, hm, hpar, hname⟩ := hp
          exact ⟨by rw [hh, hm], Or.inl ⟨hc1, hpar.symm, hname.symm⟩⟩
      · rw [if_neg hc1] at hp
        by_cases hc2 : pyUpper a2 = "НЕЧЕТ"
        · rw [if_pos hc2] at hp
          split at hp
          · simp at hp
          · simp only [AddParse.parsed.injEq] at hp
            obtain ⟨hd, hh, hm, hpar, hname⟩ := hp
            exact ⟨by rw [hh, hm], Or.inr (Or.inl ⟨hc2, hpar.symm, hname.symm⟩)⟩
        · rw [if_neg hc2] at hp
          by_cases hc3 : pyUpper a2 = "ВСЕ"
          · rw [if_pos hc3] at hp
            split at hp
            · simp at hp
            · simp only [AddParse.parsed.injEq] at hp
              obtain ⟨hd, hh, hm, hpar, hname⟩ := hp
              exact ⟨by rw [hh, hm], Or.inr (Or.inr (Or.inl ⟨hc3, hpar.symm, hname.symm⟩))⟩
          · rw [if_neg hc3] at hp
            split at hp
            · simp at hp
            · simp only [AddParse.parsed.injEq] at hp
              obtain ⟨hd, hh, hm, hpar, hname⟩ := hp
              exact ⟨by rw [hh, hm], Or.inr (Or.inr (Or.inr ⟨hc1, hc2, hc3, hpar.symm, hname.symm⟩))⟩

/-- C5: in `/add`, the third argument sets the stored parity and is consumed
exactly when its uppercasing is one of the three recognized tokens (`ЧЕТ` →
even, `НЕЧЕТ` → odd, `ВСЕ` → all); any other token is treated as the start
of the lecture name and the parity defaults to `all`. -/
theorem c5_optional_parity_token (nowDay : Int) (w : World) (chat_id : Int)
    (a0 a1 a2 : String) (rest : List String) (w' : World) (out : Outcome)
    (i : Nat) (lec : Lecture) (more : List Call)
    (heq : cmd_add nowDay w chat_id (a0 :: a1 :: a2 :: rest) = (w', out, (i, lec) :: more)) :
    (pyUpper a2 = "ЧЕТ" → lec.parity = some "even" ∧ lec.name = String.intercalate " " rest) ∧
    (pyUpper a2 = "НЕЧЕТ" → lec.parity = some "odd" ∧ lec.name = String.intercalate " " rest) ∧
    (pyUpper a2 = "ВСЕ" → lec.parity = some "all" ∧ lec.name = String.intercalate " " rest) ∧
    (pyUpper a2 ≠ "ЧЕТ" → pyUpper a2 ≠ "НЕЧЕТ" → pyUpper a2 ≠ "ВСЕ" →
      lec.parity = some "all" ∧ lec.name = String.intercalate " " (a2 :: rest)) := by
  obtain ⟨day, h, m, parity, name, haddp, hlec, hmore, hi, hfile⟩ :=
    cmd_add_appended nowDay w chat_id (a0 :: a1 :: a2 :: rest) w' out i lec more heq
  obtain ⟨hpt, hcases⟩ := addParse_parsed_fields a0 a1 a2 rest day h m parity name haddp
  subst hlec
  rcases hcases with ⟨hc, hpar, hname⟩ | ⟨hc, hpar, hname⟩ | ⟨hc, hpar, hname⟩ |
    ⟨hc1, hc2, hc3, hpar, hname⟩
  · refine ⟨fun _ => ⟨?_, ?_⟩, fun hx => ?_, fun hx => ?_, fun h1 _ _ => absurd hc h1⟩
    · show some parity = some "even"; rw [hpar]
    · show name = String.intercalate " " rest; rw [hname]
    · rw [hc] at hx; exact absurd hx (by decide)
    · rw [hc] at hx; exact absurd hx (by decide)
  · refine ⟨fun hx => ?_, fun _ => ⟨?_, ?_⟩, fun hx => ?_, fun _ h2 _ => absurd hc h2⟩
    · rw [hc] at hx; exact absurd hx (by decide)
    · show some parity = some "odd"; rw [hpar]
    · show name = String.intercalate " " rest; rw [hname]
    · rw [hc] at hx; exact absurd hx (by decide)
  · refine ⟨fun hx => ?_, fun hx => ?_, fun _ => ⟨?_, ?_⟩, fun _ _ h3 => absurd hc h3⟩
    · rw [hc] at hx; exact absurd hx (by decide)
    · rw [hc] at hx; exact absurd hx (by decide)
    · show some parity = some "all"; rw [hpar]
    · show name = String.intercalate " " rest; rw [hname]
  · refine ⟨fun hx => absurd hx hc1, fun hx => absurd hx hc2, fun hx => absurd hx hc3,
      fun _ _ _ => ⟨?_, ?_⟩⟩
    · show some parity = some "all"; rw [hpar]
    · show name = String.intercalate " " (a2 :: rest); rw [hname]

/-- Witness for C5: `add вт 10:30 чет Физика` stores parity `even` with name
`Физика`. -/
theorem c5_witness :
    (pyUpper "чет" = "ЧЕТ" →
      (⟨2, "10:30", some "even", "Физика"⟩ : Lecture).parity = some "even" ∧
      (⟨2, "10:30", some "even", "Физика"⟩ : Lecture).name =
        String.intercalate " " ["Физика"]) ∧
    (pyUpper "чет" = "НЕЧЕТ" →
      (⟨2, "10:30", some "even", "Физика"⟩ : Lecture).parity = some "odd" ∧
      (⟨2, "10:30", some "even", "Физика"⟩ : Lecture).name =
        String.intercalate " " ["Физика"]) ∧
    (pyUpper "чет" = "ВСЕ" →
      (⟨2, "10:30", some "even", "Физика"⟩ : Lecture).parity = some "all" ∧
      (⟨2, "10:30", some "even", "Физика"⟩ : Lecture).name =
        String.intercalate " " ["Физика"]) ∧
    (pyUpper "чет" ≠ "ЧЕТ" → pyUpper "чет" ≠ "НЕЧЕТ" → pyUpper "чет" ≠ "ВСЕ" →
      (⟨2, "10:30", some "even", "Физика"⟩ : Lecture).parity = some "all" ∧
      (⟨2, "10:30", some "even", "Физика"⟩ : Lecture).name =
        String.intercalate " " ["чет", "Физика"]) :=
  c5_optional_parity_token 0 ⟨FileState.content [], []⟩ 1 "вт" "10:30" "чет" ["Физика"]
    (cmd_add 0 ⟨FileState.content [], []⟩ 1 ["вт", "10:30", "чет", "Физика"]).1
    (cmd_add 0 ⟨FileState.content [], []⟩ 1 ["вт", "10:30", "чет", "Физика"]).2.1
    0 ⟨2, "10:30", some "even", "Физика"⟩ [] (by decide)

lemma parseAddTime_bounds (t : String) (h m : Int)
    (hp : parseAddTime t = some (h, m)) :
    0 ≤ h ∧ h ≤ 23 ∧ 0 ≤ m ∧ m ≤ 59 := by
  unfold parseAddTime at hp
  split at hp
  · split at hp
    · split at hp
      · rename_i hcond
        simp only [Option.some.injEq, Prod.mk.injEq] at hp
        obtain ⟨rfl, rfl⟩ := hp
        exact hcond
      · simp at hp
    · simp at hp
  · simp at hp

lemma addParse_bounds (args : List String) (day : Nat) (h m : Int)
    (parity name : String) (hp : addParse args = .parsed day h m parity name) :
    0 ≤ h ∧ h ≤ 23 ∧ 0 ≤ m ∧ m ≤ 59 := by
  match args with
  | [] => simp [addParse] at hp
  | [a0] => simp [addParse] at hp
  | [a0, a1] => simp [addParse] at hp
  | a0 :: a1 :: a2 :: rest =>
    exact parseAddTime_bounds a1 h m
      (addParse_parsed_fields a0 a1 a2 rest day h m parity name hp).1

lemma toString_intCast (k : Nat) : toString ((k : Int)) = toString k := rfl

lemma pad2_eq_pad2Nat (k : Int) (hk : 0 ≤ k) : pad2 k = pad2Nat k.toNat := by
  lift k to ℕ using hk with k
  have ht : ((k : Int)).toNat = k := by omega
  unfold pad2 pad2Nat
  rw [ht, toString_intCast]
  by_cases h10 : (k : Int) < 10
  · rw [if_pos h10, if_pos (show k < 10 by exact_mod_cast h10)]
  · rw [if_neg h10, if_neg (show ¬ k < 10 by exact_mod_cast h10)]

lemma pad2Nat_length (k : Nat) (hk : k < 100) : (pad2Nat k).length = 2 := by
  revert hk
  revert k
  decide

lemma updateFirst_get_mem (s : Schedule) (chat_id : Int) (lecs : List Lecture) :
    ∃ e, e ∈ updateFirstChat (get_chat_entry s chat_id).1 chat_id lecs ∧
      e.chat_id = chat_id ∧ e.lectures = lecs := by
  induction s with
  | nil =>
    refine ⟨⟨chat_id, lecs⟩, ?_, rfl, rfl⟩
    simp [get_chat_entry, findChatEntry, updateFirstChat]
  | cons e es ih =>
    by_cases hc : e.chat_id = chat_id
    · refine ⟨{ e with lectures := lecs }, ?_, hc, rfl⟩
      simp [get_chat_entry, findChatEntry, hc, updateFirstChat]
    · cases hfind : findChatEntry es chat_id with
      | some e2 =>
        have hg : (get_chat_entry (e :: es) chat_id).1 = e :: es := by
          simp [get_chat_entry, findChatEntry, hc, hfind]
        have hg2 : (get_chat_entry es chat_id).1 = es := by
          simp [get_chat_entry, hfind]
        obtain ⟨e3, hmem, hcid, hlecs⟩ := ih
        rw [hg2] at hmem
        refine ⟨e3, ?_, hcid, hlecs⟩
        rw [hg]
        simp only [updateFirstChat, if_neg hc]
        exact List.mem_cons_of_mem _ hmem
      | none =>
        have hg : (get_chat_entry (e :: es) chat_id).1 = e :: (es ++ [⟨chat_id, []⟩]) := by
          simp [get_chat_entry, findChatEntry, hc, hfind]
        have hg2 : (get_chat_entry es chat_id).1 = es ++ [⟨chat_id, []⟩] := by
          simp [get_chat_entry, hfind]
        obtain ⟨e3, hmem, hcid, hlecs⟩ := ih
        rw [hg2] at hmem
        refine ⟨e3, ?_, hcid, hlecs⟩
        rw [hg]
        simp only [updateFirstChat, if_neg hc]
        exact List.mem_cons_of_mem _ hmem

/-- C9: every lecture entry the add command stores has its `time` field
normalized as zero-padded `HH:MM` (hour `00..23`, minute `00..59`, two
digits each, total length 5 — no seconds), whatever the padding of the
accepted input token; and the appended entry is what gets persisted for the
invoking chat. -/
theorem c9_stored_time_normalized (nowDay : Int) (w : World) (chat_id : Int)
    (args : List String) (w' : World) (out : Outcome) (i : Nat) (lec : Lecture)
    (more : List Call)
    (heq : cmd_add nowDay w chat_id args = (w', out, (i, lec) :: more)) :
    (∃ hh mm : Nat, hh ≤ 23 ∧ mm ≤ 59 ∧
      lec.time = pad2Nat hh ++ ":" ++ pad2Nat mm ∧
      (pad2Nat hh).length = 2 ∧ (pad2Nat mm).length = 2 ∧ lec.time.length = 5) ∧
    ∃ s, w'.file = FileState.content s ∧
      ∃ e, e ∈ s ∧ e.chat_id = chat_id ∧ lec ∈ e.lectures := by
  obtain ⟨day, h, m, parity, name, haddp, hlec, hmore, hi, hfile⟩ :=
    cmd_add_appended nowDay w chat_id args w' out i lec more heq
  obtain ⟨h0, h23, m0, m59⟩ := addParse_bounds args day h m parity name haddp
  constructor
  · have htime : lec.time = pad2Nat h.toNat ++ ":" ++ pad2Nat m.toNat := by
      rw [hlec]
      show fmtTime h m = _
      unfold fmtTime
      rw [pad2_eq_pad2Nat h h0, pad2_eq_pad2Nat m m0]
    refine ⟨h.toNat, m.toNat, by omega, by omega, htime, pad2Nat_length _ (by omega),
      pad2Nat_length _ (by omega), ?_⟩
    rw [htime, String.length_append, String.length_append,
      pad2Nat_length _ (by omega), pad2Nat_length _ (by omega)]
    rfl
  · refine ⟨_, hfile, ?_⟩
    obtain ⟨e, hm1, hm2, hm3⟩ := updateFirst_get_mem (load_schedule w.file) chat_id
      ((get_chat_entry (load_schedule w.file) chat_id).2.lectures ++ [lec])
    refine ⟨e, hm1, hm2, ?_⟩
    rw [hm3]
    simp

/-- Witness for C9: `add СР 7:5 Химия` (unpadded time) stores `07:05`. -/
theorem c9_witness :
    (∃ hh mm : Nat, hh ≤ 23 ∧ mm ≤ 59 ∧
      (⟨3, "07:05", some "all", "Химия"⟩ : Lecture).time = pad2Nat hh ++ ":" ++ pad2Nat mm ∧
      (pad2Nat hh).length = 2 ∧ (pad2Nat mm).length = 2 ∧
      (⟨3, "07:05", some "all", "Химия"⟩ : Lecture).time.length = 5) ∧
    ∃ s, (cmd_add 0 ⟨FileState.missing, []⟩ 5 ["СР", "7:5", "Химия"]).1.file =
        FileState.content s ∧
      ∃ e, e ∈ s ∧ e.chat_id = 5 ∧ (⟨3, "07:05", some "all", "Химия"⟩ : Lecture) ∈ e.lectures :=
  c9_stored_time_normalized 0 ⟨FileState.missing, []⟩ 5 ["СР", "7:5", "Химия"]
    (cmd_add 0 ⟨FileState.missing, []⟩ 5 ["СР", "7:5", "Химия"]).1
    (cmd_add 0 ⟨FileState.missing, []⟩ 5 ["СР", "7:5", "Химия"]).2.1
    0 ⟨3, "07:05", some "all", "Химия"⟩ [] (by decide)

lemma schedule_lecture_job_none (nowDay : Int) (q : List Job) (chat_id : Int)
    (lecture : Lecture) (lecture_id : Nat)
    (h : lectureJob nowDay chat_id lecture lecture_id = none) :
    schedule_lecture_job nowDay q chat_id lecture lecture_id = none := by
  unfold schedule_lecture_job
  rw [h]

lemma schedule_lecture_job_some (nowDay : Int) (q : List Job) (chat_id : Int)
    (lecture : Lecture) (lecture_id : Nat) (j : Job)
    (h : lectureJob nowDay chat_id lecture lecture_id = some j) :
    schedule_lecture_job nowDay q chat_id lecture lecture_id =
      some (q.filter (fun x => x.name ≠ j.name) ++ [j]) := by
  unfold schedule_lecture_job
  rw [h]

/-- The names under which the reconciliation loop (from index `i`) actually
performs a registration — the prefix before the first failing lecture. -/
def processedNames (nowDay : Int) (chat_id : Int) (i : Nat) : List Lecture → List String
  | [] => []
  | l :: ls =>
    match lectureJob nowDay chat_id l i with
    | none => []
    | some j => j.name :: processedNames nowDay chat_id (i + 1) ls

lemma registerAllFrom_hom (lecs : List Lecture) :
    ∀ (nowDay : Int) (q : List Job) (chat_id : Int) (i : Nat),
    (registerAllFrom nowDay q chat_id i lecs).1 =
      q.filter (fun x => x.name ∉ processedNames nowDay chat_id i lecs) ++
        (registerAllFrom nowDay [] chat_id i lecs).1 := by
  induction lecs with
  | nil =>
    intro nowDay q chat_id i
    simp [registerAllFrom, processedNames]
  | cons l ls ih =>
    intro nowDay q chat_id i
    cases hlj : lectureJob nowDay chat_id l i with
    | none =>
      have hsjq := schedule_lecture_job_none nowDay q chat_id l i hlj
      have hsj0 := schedule_lecture_job_none nowDay [] chat_id l i hlj
      simp only [registerAllFrom, processedNames, hsjq, hsj0, hlj]
      simp
    | some j =>
      have hsjq := schedule_lecture_job_some nowDay q chat_id l i j hlj
      have hsj0 := schedule_lecture_job_some nowDay [] chat_id l i j hlj
      simp only [registerAllFrom, processedNames, hsjq, hsj0, hlj]
      simp only [List.filter_nil, List.nil_append]
      rw [ih nowDay (q.filter (fun x => x.name ≠ j.name) ++ [j]) chat_id (i + 1),
        ih nowDay [j] chat_id (i + 1)]
      rw [List.filter_append, List.append_assoc]
      congr 1
      rw [List.filter_filter]
      apply List.filter_congr
      intro x hx
      by_cases h1 : x.name = j.name <;>
        by_cases h2 : x.name ∈ processedNames nowDay chat_id (i + 1) ls <;>
        simp [h1, h2]

lemma registerFresh_names (lecs : List Lecture) :
    ∀ (nowDay : Int) (chat_id : Int) (i : Nat) (j : Job),
    j ∈ (registerAllFrom nowDay [] chat_id i lecs).1 →
    j.name ∈ processedNames nowDay chat_id i lecs := by
  induction lecs with
  | nil =>
    intro nowDay chat_id i j hmem
    simp [registerAllFrom] at hmem
  | cons l ls ih =>
    intro nowDay chat_id i j hmem
    cases hlj : lectureJob nowDay chat_id l i with
    | none =>
      have hsj0 := schedule_lecture_job_none nowDay [] chat_id l i hlj
      simp only [registerAllFrom, hsj0] at hmem
      simp at hmem
    | some j0 =>
      have hsj0 := schedule_lecture_job_some nowDay [] chat_id l i j0 hlj
      simp only [registerAllFrom, hsj0, List.filter_nil, List.nil_append] at hmem
      rw [registerAllFrom_hom ls nowDay [j0] chat_id (i + 1)] at hmem
      simp only [processedNames, hlj]
      rcases List.mem_append.mp hmem with hin | hin
      · have hf := List.mem_filter.mp hin
        have hj : j = j0 := by simpa using hf.1
        rw [hj]
        exact List.mem_cons_self _ _
      · exact List.mem_cons_of_mem _ (ih nowDay chat_id (i + 1) j hin)

lemma registerFresh_nodup (lecs : List Lecture) :
    ∀ (nowDay : Int) (chat_id : Int) (i : Nat),
    ((registerAllFrom nowDay [] chat_id i lecs).1.map Job.name).Nodup := by
  induction lecs with
  | nil =>
    intro nowDay chat_id i
    simp [registerAllFrom]
  | cons l ls ih =>
    intro nowDay chat_id i
    cases hlj : lectureJob nowDay chat_id l i with
    | none =>
      have hsj0 := schedule_lecture_job_none nowDay [] chat_id l i hlj
      simp only [registerAllFrom, hsj0]
      simp
    | some j0 =>
      have hsj0 := schedule_lecture_job_some nowDay [] chat_id l i j0 hlj
      simp only [registerAllFrom, hsj0, List.filter_nil, List.nil_append]
      rw [registerAllFrom_hom ls nowDay [j0] chat_id (i + 1)]
      by_cases hmemb : j0.name ∈ processedNames nowDay chat_id (i + 1) ls
      · have hfe : [j0].filter
            (fun x => x.name ∉ processedNames nowDay chat_id (i + 1) ls) = [] := by
          simp [hmemb]
        rw [hfe, List.nil_append]
        exact ih nowDay chat_id (i + 1)
      · have hfe : [j0].filter
            (fun x => x.name ∉ processedNames nowDay chat_id (i + 1) ls) = [j0] := by
          simp [hmemb]
        rw [hfe]
        simp only [List.cons_append, List.nil_append, List.map_cons, List.nodup_cons]
        refine ⟨?_, ih nowDay chat_id (i + 1)⟩
        intro hcontra
        obtain ⟨j2, hj2mem, hj2name⟩ := List.mem_map.mp hcontra
        exact hmemb (hj2name ▸ registerFresh_names ls nowDay chat_id (i + 1) j2 hj2mem)

/-- C8: registering all of a chat's lectures is idempotent — running the
per-lecture registration loop twice in a row over the same list yields the
same job queue (so the same set of timer names), and the registered names
stay duplicate-free, because registering under an existing name first
removes the old registration. -/
theorem c8_reconcile_idempotent (nowDay : Int) (q : List Job) (chat_id : Int)
    (lectures : List Lecture) :
    (registerAllFrom nowDay (registerAllFrom nowDay q chat_id 0 lectures).1
        chat_id 0 lectures).1 =
      (registerAllFrom nowDay q chat_id 0 lectures).1 ∧
    ((q.map Job.name).Nodup →
      ((registerAllFrom nowDay q chat_id 0 lectures).1.map Job.name).Nodup) := by
  constructor
  · rw [registerAllFrom_hom lectures nowDay
      (registerAllFrom nowDay q chat_id 0 lectures).1 chat_id 0]
    rw [registerAllFrom_hom lectures nowDay q chat_id 0]
    rw [List.filter_append]
    have hR0 : (registerAllFrom nowDay [] chat_id 0 lectures).1.filter
        (fun x => x.name ∉ processedNames nowDay chat_id 0 lectures) = [] := by
      rw [List.filter_eq_nil_iff]
      intro a ha
      have := registerFresh_names lectures nowDay chat_id 0 a ha
      simp [this]
    have hqf : (q.filter (fun x => x.name ∉ processedNames nowDay chat_id 0 lectures)).filter
        (fun x => x.name ∉ processedNames nowDay chat_id 0 lectures) =
        q.filter (fun x => x.name ∉ processedNames nowDay chat_id 0 lectures) := by
      rw [List.filter_filter]
      apply List.filter_congr
      intro x hx
      exact Bool.and_self _
    rw [hqf, hR0, List.append_nil]
  · intro hnodup
    rw [registerAllFrom_hom lectures nowDay q chat_id 0]
    rw [List.map_append]
    apply List.Nodup.append
    · exact List.Nodup.sublist ((List.filter_sublist q).map Job.name) hnodup
    · exact registerFresh_nodup lectures nowDay chat_id 0
    · intro x hx1 hx2
      obtain ⟨j1, hj1, hx⟩ := List.mem_map.mp hx1
      obtain ⟨j2, hj2, hname⟩ := List.mem_map.mp hx2
      have h1 := (List.mem_filter.mp hj1).2
      have h2 := registerFresh_names lectures nowDay chat_id 0 j2 hj2
      rw [hname.trans hx.symm] at h2
      simp at h1
      exact h1 h2

/-- Witness for C8 at a concrete one-lecture list, starting from an empty
(nodup) queue. -/
theorem c8_witness :
    ((registerAllFrom 0 (registerAllFrom 0 ([] : List Job) 3 0
        [⟨1, "09:00", some "all", "М"⟩]).1 3 0 [⟨1, "09:00", some "all", "М"⟩]).1 =
      (registerAllFrom 0 ([] : List Job) 3 0 [⟨1, "09:00", some "all", "М"⟩]).1) ∧
    ((registerAllFrom 0 ([] : List Job) 3 0
        [⟨1, "09:00", some "all", "М"⟩]).1.map Job.name).Nodup :=
  ⟨(c8_reconcile_idempotent 0 [] 3 [⟨1, "09:00", some "all", "М"⟩]).1,
    (c8_reconcile_idempotent 0 [] 3 [⟨1, "09:00", some "all", "М"⟩]).2 (by simp)⟩
